import Mathlib

/-!
Verification of the cil2cpp runtime concurrency core (task engine, combinators,
thread pool, interlocked atomics, cancellation, monitor sync-block table).

Shallow embedding notes.  The C++ functions are sequential under a per-task
mutex, so the serialized behaviour is modelled by pure state-passing
functions.  A nullable pointer is an Option.  The Int32 status field holds
only the codes 0 (pending), 1 (completed), 2 (faulted) and is compared with
the literal comparisons of the source, so it is modelled as Nat.  A queued
continuation node carries a callback pointer and a state pointer; running a
callback is observable only through the order of invocation, so the model
returns the list of nodes invoked, in invocation order, next to the updated
task state.
-/

namespace Cil2Cpp

/-- A continuation node from task.h: callback pointer and abstract state
pointer, modelled as numeric identities.  The next field of the C++ struct
is the tail of the enclosing list. -/
structure TaskContinuation where
  callback : Nat
  state : Nat
deriving DecidableEq, Repr

/-- An abstract exception handle; tcs_set_canceled fills only the message. -/
structure Exception where
  message : String
deriving DecidableEq, Repr

/-- Task from task.h: status code, exception handle, continuation list.
The head of f_continuations is the most recently pushed node.  The lock is
the serialization device and has no pure content. -/
structure Task where
  f_status : Nat
  f_exception : Option Exception
  f_continuations : List TaskContinuation
deriving DecidableEq, Repr

/-- run_continuations from task.cpp walks the list from the given head and
invokes each callback; the invocation order is the list order. -/
def run_continuations (head : List TaskContinuation) : List TaskContinuation :=
  head

/-- task_alloc / task_create_pending: status 0, no exception, empty list. -/
def task_create_pending : Task :=
  { f_status := 0, f_exception := none, f_continuations := [] }

/-- task_create_completed: freshly allocated task with status 1. -/
def task_create_completed : Task :=
  { f_status := 1, f_exception := none, f_continuations := [] }

/-- Body of task_complete once the null check passed: under the lock, a
status of 1 or more is a silent no-op; otherwise set status 1, detach the
whole continuation list, then run it outside the lock. -/
def task_complete_core (t : Task) : Task × List TaskContinuation :=
  if 1 ≤ t.f_status then (t, [])
  else ({ t with f_status := 1, f_continuations := [] },
        run_continuations t.f_continuations)

/-- Body of task_fault once the null check passed: like completion but the
status becomes 2 and the exception handle (possibly null) is stored. -/
def task_fault_core (t : Task) (ex : Option Exception) : Task × List TaskContinuation :=
  if 1 ≤ t.f_status then (t, [])
  else ({ t with f_status := 2, f_exception := ex, f_continuations := [] },
        run_continuations t.f_continuations)

/-- task_complete from task.cpp, including the null-task guard. -/
def task_complete : Option Task → Option Task × List TaskContinuation
  | none => (none, [])
  | some t => ((task_complete_core t).1, (task_complete_core t).2)

/-- task_fault from task.cpp, including the null-task guard. -/
def task_fault : Option Task → Option Exception → Option Task × List TaskContinuation
  | none, _ => (none, [])
  | some t, ex => ((task_fault_core t ex).1, (task_fault_core t ex).2)

/-- task_add_continuation from task.cpp: null task is a no-op; a pending
task pushes the node at the head of the list; a finished task runs the
callback immediately on the calling thread (second component). -/
def task_add_continuation : Option Task → TaskContinuation → Option Task × List TaskContinuation
  | none, _ => (none, [])
  | some t, cont =>
    if t.f_status < 1 then
      (some { t with f_continuations := cont :: t.f_continuations }, [])
    else
      (some t, [cont])

/-- task_wait returns immediately when the task is null or already
finished; otherwise it enters the spin-and-yield loop.  This function
reports whether the loop is entered. -/
def task_wait_spins : Option Task → Bool
  | none => false
  | some t => decide (t.f_status < 1)

/-- Registration of a whole list of continuations in order, keeping only
the task (for a pending task nothing runs inline). -/
def registerAll (t : Option Task) (cs : List TaskContinuation) : Option Task :=
  cs.foldl (fun a c => (task_add_continuation a c).1) t

/-- The message of the exception built by tcs_set_canceled. -/
def operation_canceled_message : String := "The operation was canceled."

/-- tcs_set_canceled from cancellation.cpp: fault the task with a freshly
allocated OperationCanceledException carrying the fixed message. -/
def tcs_set_canceled (t : Option Task) : Option Task × List TaskContinuation :=
  task_fault t (some { message := operation_canceled_message })

/-- tcs_try_set_result from cancellation.cpp: false on a null or already
finished task, otherwise complete it and report true. -/
def tcs_try_set_result : Option Task → (Option Task × List TaskContinuation) × Bool
  | none => ((none, []), false)
  | some t =>
    if t.f_status ≠ 0 then ((some t, []), false)
    else (task_complete (some t), true)

/-- tcs_try_set_exception from cancellation.cpp. -/
def tcs_try_set_exception (t : Option Task) (ex : Option Exception) :
    (Option Task × List TaskContinuation) × Bool :=
  match t with
  | none => ((none, []), false)
  | some u =>
    if u.f_status ≠ 0 then ((some u, []), false)
    else (task_fault (some u) ex, true)

/-- tcs_try_set_canceled from cancellation.cpp. -/
def tcs_try_set_canceled : Option Task → (Option Task × List TaskContinuation) × Bool
  | none => ((none, []), false)
  | some t =>
    if t.f_status ≠ 0 then ((some t, []), false)
    else (tcs_set_canceled (some t), true)

/-! Cancellation source and token, from cancellation.h / cancellation.cpp. -/

/-- CancellationTokenSource: the single state field, 0 = active,
1 = canceled, 2 = disposed. -/
structure CancellationTokenSource where
  f__state : Nat
deriving DecidableEq, Repr

/-- CancellationToken: a value wrapping a nullable source reference. -/
structure CancellationToken where
  f__source : Option CancellationTokenSource
deriving DecidableEq, Repr

/-- cts_create: a fresh source in the active state. -/
def cts_create : CancellationTokenSource := { f__state := 0 }

/-- cts_cancel: atomic compare-and-swap of the state from 0 to 1; a null
source or any other state is left unchanged. -/
def cts_cancel : Option CancellationTokenSource → Option CancellationTokenSource
  | none => none
  | some c => if c.f__state = 0 then some { f__state := 1 } else some c

/-- cts_dispose from cancellation.h: a non-null source gets state 2
unconditionally. -/
def cts_dispose : Option CancellationTokenSource → Option CancellationTokenSource
  | none => none
  | some _ => some { f__state := 2 }

/-- cts_get_token: wrap the (nullable) source reference. -/
def cts_get_token (c : Option CancellationTokenSource) : CancellationToken :=
  { f__source := c }

/-- ct_is_cancellation_requested from cancellation.h: true iff the source
reference is non-null and its state equals 1. -/
def ct_is_cancellation_requested (tok : CancellationToken) : Bool :=
  match tok.f__source with
  | none => false
  | some c => decide (c.f__state = 1)

/-! Interlocked atomics from interlocked.cpp.  Memory is a map from
location addresses to stored values; the GCC builtin
sync_val_compare_and_swap(loc, comparand, value) returns the prior value
at loc and stores value exactly when the prior value equals comparand. -/

/-- compare_exchange_i32(location, value, comparand): returns the prior
32-bit value and the updated memory. -/
def compare_exchange_i32 (mem : Nat → Int) (location : Nat) (value comparand : Int) :
    Int × (Nat → Int) :=
  (mem location,
   if mem location = comparand then Function.update mem location value else mem)

/-- compare_exchange_i64(location, value, comparand): the 64-bit variant,
same shape as the 32-bit one. -/
def compare_exchange_i64 (mem : Nat → Int) (location : Nat) (value comparand : Int) :
    Int × (Nat → Int) :=
  (mem location,
   if mem location = comparand then Function.update mem location value else mem)

/-! Thread pool from threadpool.cpp.  Only the state touched by init is
modelled: the initialized flag and the number of spawned workers. -/

/-- The globals of threadpool.cpp that init reads and writes. -/
structure ThreadPoolState where
  s_initialized : Bool
  s_workers : Nat
deriving DecidableEq, Repr

/-- threadpool init(num_threads).  The hardware_concurrency argument is
the value the standard-library query returns, 0 meaning the query failed.
A second call while initialized returns immediately; a non-positive
request falls back to the hardware concurrency, and to the constant 4
when the query failed; the loop then spawns that many workers. -/
def threadpool_init (hardware_concurrency : Nat) (num_threads : Int)
    (s : ThreadPoolState) : ThreadPoolState :=
  if s.s_initialized then s
  else
    let n : Int :=
      if num_threads ≤ 0 then
        if (hardware_concurrency : Int) ≤ 0 then 4 else (hardware_concurrency : Int)
      else num_threads
    { s_initialized := true, s_workers := n.toNat }

/-! Combinators when_all and when_any from task.cpp.  The result task is
stored inside the combinator state; every completion of an input task
invokes the callback once on that shared state, and the per-task lock in
task_complete together with the atomic counter or flag serializes those
invocations, so an interleaving of input completions is a sequence of
callback applications. -/

/-- WhenAllState from task.cpp: result task and the atomic remaining
counter (an Int32; it only ever counts down from the array length). -/
structure WhenAllState where
  result_task : Task
  remaining : Int
deriving DecidableEq, Repr

/-- when_all_callback: fetch_sub(1) returns the counter value before the
decrement; the invocation that observed 1 completes the result task. -/
def when_all_callback (s : WhenAllState) : WhenAllState :=
  if s.remaining = 1 then
    { result_task := (task_complete_core s.result_task).1,
      remaining := s.remaining - 1 }
  else
    { s with remaining := s.remaining - 1 }

/-- The state task_when_all builds for a non-empty array of length n:
fresh pending result and the counter stored at n. -/
def when_all_init (n : Nat) : WhenAllState :=
  { result_task := task_create_pending, remaining := (n : Int) }

/-- One iteration of the registration loop of task_when_all: a null entry
invokes the callback directly; a non-null entry goes through
task_add_continuation, which runs the callback inline exactly when the
entry is already finished and otherwise just queues it. -/
def when_all_entry_step (s : WhenAllState) : Option Task → WhenAllState
  | none => when_all_callback s
  | some t => if t.f_status < 1 then s else when_all_callback s

/-- task_when_all: a null or empty array returns a fresh completed task
and allocates no state; otherwise the returned task is the result field
of the state after the registration loop (paired here with that state). -/
def task_when_all (tasks : Option (List (Option Task))) :
    Task × Option WhenAllState :=
  match tasks with
  | none => (task_create_completed, none)
  | some l =>
    if l.length = 0 then (task_create_completed, none)
    else ((l.foldl when_all_entry_step (when_all_init l.length)).result_task,
          some (l.foldl when_all_entry_step (when_all_init l.length)))

/-- WhenAnyState from task.cpp: result task and the atomic already-fired
flag. -/
structure WhenAnyState where
  result_task : Task
  completed : Bool
deriving DecidableEq, Repr

/-- when_any_callback: compare-and-swap the flag from false to true; only
the winning invocation completes the result task. -/
def when_any_callback (s : WhenAnyState) : WhenAnyState :=
  if s.completed = false then
    { result_task := (task_complete_core s.result_task).1, completed := true }
  else s

/-- The state task_when_any builds for a non-empty array: fresh pending
result, flag stored false. -/
def when_any_init : WhenAnyState :=
  { result_task := task_create_pending, completed := false }

/-- One iteration of the registration loop of task_when_any, mirroring
when_all_entry_step. -/
def when_any_entry_step (s : WhenAnyState) : Option Task → WhenAnyState
  | none => when_any_callback s
  | some t => if t.f_status < 1 then s else when_any_callback s

/-- task_when_any: a null or empty array returns a fresh completed task;
otherwise the result field of the state after the registration loop. -/
def task_when_any (tasks : Option (List (Option Task))) :
    Task × Option WhenAnyState :=
  match tasks with
  | none => (task_create_completed, none)
  | some l =>
    if l.length = 0 then (task_create_completed, none)
    else ((l.foldl when_any_entry_step when_any_init).result_task,
          some (l.foldl when_any_entry_step when_any_init))

/-- The number of entries of the array that fire the callback already
during the registration loop: null entries and entries whose task is
already finished. -/
def initially_done_count (l : List (Option Task)) : Nat :=
  l.countP (fun e =>
    match e with
    | none => true
    | some t => decide (1 ≤ t.f_status))

/-! Monitor sync-block allocation race, from get_sync_block in
monitor.cpp.  The shared state is the atomic slot index stored on the
object header (0 = unassigned), the atomic next-index counter of the
global table, and the table itself (entry = block identity, none =
null).  A freshly allocated SyncBlock is identified by the table index
the allocating thread obtained, because indices handed out by fetch_add
are distinct.  Each thread executes get_sync_block on the same object;
every atomic action of the source (slot load, fetch_add, table write
under the table lock, compare-and-swap, table null-out, table read) is
one step of the relation, and steps of different threads interleave
arbitrarily. -/

/-- The program counter and local variables of one thread inside
get_sync_block. -/
inductive SyncPC where
  /-- About to load the slot index from the object header. -/
  | start : SyncPC
  /-- Fast path: loaded a non-zero index v, about to read the table. -/
  | fast (v : Nat) : SyncPC
  /-- Slow path: loaded 0, about to fetch_add the next-index counter. -/
  | alloc : SyncPC
  /-- Obtained index my, about to publish the new block into the table. -/
  | store (my : Nat) : SyncPC
  /-- About to compare-and-swap the slot from 0 to my. -/
  | cas (my : Nat) : SyncPC
  /-- The compare-and-swap failed and observed obs; about to null the own
  table entry and delete the own block. -/
  | lose (my : Nat) (obs : Nat) : SyncPC
  /-- About to read the winning block from the table at obs. -/
  | loseRead (obs : Nat) : SyncPC
  /-- Returned the block identified by ret. -/
  | done (ret : Nat) : SyncPC
deriving DecidableEq, Repr

/-- The shared monitor state plus every thread of the race. -/
structure SyncConfig where
  /-- The __sync_block field of the contended object. -/
  slot : Nat
  /-- The g_next_index counter. -/
  next : Nat
  /-- The g_sync_table; an entry holds the identity of the block stored
  there, none for null. -/
  table : Nat → Option Nat
  /-- The state of each thread. -/
  thr : Nat → SyncPC

/-- The initial configuration: fresh object (slot 0), counter at 1,
empty table, all threads at the entry of get_sync_block. -/
def syncInit : SyncConfig :=
  { slot := 0, next := 1, table := fun _ => none, thr := fun _ => SyncPC.start }

/-- One interleaved atomic step of the race of M threads on
get_sync_block, following monitor.cpp line by line. -/
inductive SyncStep (M : Nat) : SyncConfig → SyncConfig → Prop where
  /-- Load of the slot observing 0: take the slow path. -/
  | readSlotZero (c : SyncConfig) (t : Nat) (ht : t < M)
      (hpc : c.thr t = SyncPC.start) (hs : c.slot = 0) :
      SyncStep M c { c with thr := Function.update c.thr t SyncPC.alloc }
  /-- Load of the slot observing a non-zero index: take the fast path. -/
  | readSlotAssigned (c : SyncConfig) (t : Nat) (ht : t < M)
      (hpc : c.thr t = SyncPC.start) (hs : c.slot ≠ 0) :
      SyncStep M c { c with thr := Function.update c.thr t (SyncPC.fast c.slot) }
  /-- Fast path: read the table under the table lock and return. -/
  | fastRead (c : SyncConfig) (t : Nat) (ht : t < M) (v b : Nat)
      (hpc : c.thr t = SyncPC.fast v) (htab : c.table v = some b) :
      SyncStep M c { c with thr := Function.update c.thr t (SyncPC.done b) }
  /-- fetch_add on the next-index counter. -/
  | allocIndex (c : SyncConfig) (t : Nat) (ht : t < M)
      (hpc : c.thr t = SyncPC.alloc) :
      SyncStep M c { c with next := c.next + 1,
                            thr := Function.update c.thr t (SyncPC.store c.next) }
  /-- Publish the new block at the own index under the table lock. -/
  | storeBlock (c : SyncConfig) (t : Nat) (ht : t < M) (my : Nat)
      (hpc : c.thr t = SyncPC.store my) :
      SyncStep M c { c with table := Function.update c.table my (some my),
                            thr := Function.update c.thr t (SyncPC.cas my) }
  /-- Winning compare-and-swap: the slot was still 0; return own block. -/
  | casWin (c : SyncConfig) (t : Nat) (ht : t < M) (my : Nat)
      (hpc : c.thr t = SyncPC.cas my) (hs : c.slot = 0) :
      SyncStep M c { c with slot := my,
                            thr := Function.update c.thr t (SyncPC.done my) }
  /-- Losing compare-and-swap: another thread published first; remember
  the observed index. -/
  | casLose (c : SyncConfig) (t : Nat) (ht : t < M) (my : Nat)
      (hpc : c.thr t = SyncPC.cas my) (hs : c.slot ≠ 0) :
      SyncStep M c { c with thr := Function.update c.thr t (SyncPC.lose my c.slot) }
  /-- Null the own table entry and delete the own block. -/
  | loseNull (c : SyncConfig) (t : Nat) (ht : t < M) (my obs : Nat)
      (hpc : c.thr t = SyncPC.lose my obs) :
      SyncStep M c { c with table := Function.update c.table my none,
                            thr := Function.update c.thr t (SyncPC.loseRead obs) }
  /-- Read the winning block from the table and return it. -/
  | loseReadStep (c : SyncConfig) (t : Nat) (ht : t < M) (obs b : Nat)
      (hpc : c.thr t = SyncPC.loseRead obs) (htab : c.table obs = some b) :
      SyncStep M c { c with thr := Function.update c.thr t (SyncPC.done b) }

/-- Reachability of a configuration of the M-thread race from the fresh
object. -/
def SyncReachable (M : Nat) (c : SyncConfig) : Prop :=
  Relation.ReflTransGen (SyncStep M) syncInit c

/-- Thread state s holds index i as the index of a block it allocated
and has not yet released or discarded. -/
def ownsIdx (s : SyncPC) (i : Nat) : Prop :=
  s = SyncPC.store i ∨ s = SyncPC.cas i ∨ ∃ obs, s = SyncPC.lose i obs

/-- Thread state s keeps a live table entry at i that is not the
published slot: after the publish step and before a losing null-out. -/
def ownsLive (s : SyncPC) (i : Nat) : Prop :=
  s = SyncPC.cas i ∨ ∃ obs, s = SyncPC.lose i obs

/-- The inductive invariant of the get_sync_block race.  The block at a
table index equals that index; the published slot entry is permanent; an
unpublished live entry belongs to exactly one in-flight thread. -/
structure SyncInv (M : Nat) (c : SyncConfig) : Prop where
  next_pos : 1 ≤ c.next
  fresh : ∀ i, c.next ≤ i → c.table i = none
  own_pos : ∀ t, t < M → ∀ i, ownsIdx (c.thr t) i → 1 ≤ i ∧ i < c.next
  own_inj : ∀ t u, t < M → u < M → t ≠ u → ∀ i,
    ownsIdx (c.thr t) i → ¬ ownsIdx (c.thr u) i
  slot_ok : c.slot = 0 ∨
    (1 ≤ c.slot ∧ c.slot < c.next ∧ c.table c.slot = some c.slot ∧
      ∀ t, t < M → ¬ ownsIdx (c.thr t) c.slot)
  fast_ok : ∀ t, t < M → ∀ v, c.thr t = SyncPC.fast v → v = c.slot ∧ v ≠ 0
  store_ok : ∀ t, t < M → ∀ i, c.thr t = SyncPC.store i → c.table i = none
  cas_ok : ∀ t, t < M → ∀ i, c.thr t = SyncPC.cas i → c.table i = some i
  lose_ok : ∀ t, t < M → ∀ i obs, c.thr t = SyncPC.lose i obs →
    obs = c.slot ∧ obs ≠ 0 ∧ c.table i = some i
  loseRead_ok : ∀ t, t < M → ∀ obs, c.thr t = SyncPC.loseRead obs →
    obs = c.slot ∧ obs ≠ 0
  done_ok : ∀ t, t < M → ∀ r, c.thr t = SyncPC.done r → c.slot ≠ 0 ∧ r = c.slot
  live_ok : ∀ i, c.table i ≠ none →
    c.table i = some i ∧ 1 ≤ i ∧
      (i = c.slot ∨ ∃ t, t < M ∧ ownsLive (c.thr t) i)

/-- The 1-thread demo run of get_sync_block: after the slot load. -/
def syncDemo1 : SyncConfig :=
  { syncInit with thr := Function.update syncInit.thr 0 SyncPC.alloc }

/-- The demo run after the fetch_add on the next-index counter. -/
def syncDemo2 : SyncConfig :=
  { syncDemo1 with next := syncDemo1.next + 1,
                   thr := Function.update syncDemo1.thr 0 (SyncPC.store syncDemo1.next) }

/-- The demo run after publishing the block into the table. -/
def syncDemo3 : SyncConfig :=
  { syncDemo2 with table := Function.update syncDemo2.table 1 (some 1),
                   thr := Function.update syncDemo2.thr 0 (SyncPC.cas 1) }

/-- The demo run after the winning compare-and-swap. -/
def syncDemoFinal : SyncConfig :=
  { syncDemo3 with slot := 1,
                   thr := Function.update syncDemo3.thr 0 (SyncPC.done 1) }

theorem syncInv_init (M : Nat) : SyncInv M syncInit := by
  constructor <;>
    simp [syncInit, ownsIdx, ownsLive]

theorem syncInv_readSlotZero {M : Nat} {c : SyncConfig} {t : Nat}
    (ht : t < M) (hpc : c.thr t = SyncPC.start) (hs : c.slot = 0)
    (inv : SyncInv M c) :
    SyncInv M { c with thr := Function.update c.thr t SyncPC.alloc } := by
  refine ⟨inv.next_pos, inv.fresh, ?_, ?_, Or.inl hs, ?_, ?_, ?_, ?_, ?_, ?_, ?_⟩
  · intro u hu i hown
    by_cases hut : u = t
    · subst hut; simp only [Function.update_same] at hown; simp [ownsIdx] at hown
    · simp only [Function.update_noteq hut] at hown; exact inv.own_pos u hu i hown
  · intro u v hu hv huv i hou
    by_cases hut : u = t
    · subst hut; simp only [Function.update_same] at hou; simp [ownsIdx] at hou
    · simp only [Function.update_noteq hut] at hou
      by_cases hvt : v = t
      · subst hvt; simp only [Function.update_same]; simp [ownsIdx]
      · simp only [Function.update_noteq hvt]; exact inv.own_inj u v hu hv huv i hou
  · intro u hu v hpc2
    by_cases hut : u = t
    · subst hut; simp only [Function.update_same] at hpc2; simp at hpc2
    · simp only [Function.update_noteq hut] at hpc2; exact inv.fast_ok u hu v hpc2
  · intro u hu i hpc2
    by_cases hut : u = t
    · subst hut; simp only [Function.update_same] at hpc2; simp at hpc2
    · simp only [Function.update_noteq hut] at hpc2; exact inv.store_ok u hu i hpc2
  · intro u hu i hpc2
    by_cases hut : u = t
    · subst hut; simp only [Function.update_same] at hpc2; simp at hpc2
    · simp only [Function.update_noteq hut] at hpc2; exact inv.cas_ok u hu i hpc2
  · intro u hu i obs hpc2
    by_cases hut : u = t
    · subst hut; simp only [Function.update_same] at hpc2; simp at hpc2
    · simp only [Function.update_noteq hut] at hpc2; exact inv.lose_ok u hu i obs hpc2
  · intro u hu obs hpc2
    by_cases hut : u = t
    · subst hut; simp only [Function.update_same] at hpc2; simp at hpc2
    · simp only [Function.update_noteq hut] at hpc2; exact inv.loseRead_ok u hu obs hpc2
  · intro u hu r hpc2
    by_cases hut : u = t
    · subst hut; simp only [Function.update_same] at hpc2; simp at hpc2
    · simp only [Function.update_noteq hut] at hpc2; exact inv.done_ok u hu r hpc2
  · intro i hne
    obtain ⟨e1, e2, e3⟩ := inv.live_ok i hne
    refine ⟨e1, e2, ?_⟩
    rcases e3 with h | ⟨t0, ht0, hlive⟩
    · exact Or.inl h
    · by_cases h0t : t0 = t
      · subst h0t; rw [hpc] at hlive; simp [ownsLive] at hlive
      · exact Or.inr ⟨t0, ht0, by simp only [Function.update_noteq h0t]; exact hlive⟩

theorem syncInv_readSlotAssigned {M : Nat} {c : SyncConfig} {t : Nat}
    (ht : t < M) (hpc : c.thr t = SyncPC.start) (hs : c.slot ≠ 0)
    (inv : SyncInv M c) :
    SyncInv M { c with thr := Function.update c.thr t (SyncPC.fast c.slot) } := by
  refine ⟨inv.next_pos, inv.fresh, ?_, ?_, ?_, ?_, ?_, ?_, ?_, ?_, ?_, ?_⟩
  · intro u hu i hown
    by_cases hut : u = t
    · subst hut; simp only [Function.update_same] at hown; simp [ownsIdx] at hown
    · simp only [Function.update_noteq hut] at hown; exact inv.own_pos u hu i hown
  · intro u v hu hv huv i hou
    by_cases hut : u = t
    · subst hut; simp only [Function.update_same] at hou; simp [ownsIdx] at hou
    · simp only [Function.update_noteq hut] at hou
      by_cases hvt : v = t
      · subst hvt; simp only [Function.update_same]; simp [ownsIdx]
      · simp only [Function.update_noteq hvt]; exact inv.own_inj u v hu hv huv i hou
  · rcases inv.slot_ok with h | ⟨h1, h2, h3, h4⟩
    · exact Or.inl h
    · refine Or.inr ⟨h1, h2, h3, ?_⟩
      intro u hu
      by_cases hut : u = t
      · subst hut; simp only [Function.update_same]; simp [ownsIdx]
      · simp only [Function.update_noteq hut]; exact h4 u hu
  · intro u hu v hpc2
    by_cases hut : u = t
    · subst hut; simp only [Function.update_same] at hpc2
      injection hpc2 with h2
      subst h2; exact ⟨rfl, hs⟩
    · simp only [Function.update_noteq hut] at hpc2; exact inv.fast_ok u hu v hpc2
  · intro u hu i hpc2
    by_cases hut : u = t
    · subst hut; simp only [Function.update_same] at hpc2; simp at hpc2
    · simp only [Function.update_noteq hut] at hpc2; exact inv.store_ok u hu i hpc2
  · intro u hu i hpc2
    by_cases hut : u = t
    · subst hut; simp only [Function.update_same] at hpc2; simp at hpc2
    · simp only [Function.update_noteq hut] at hpc2; exact inv.cas_ok u hu i hpc2
  · intro u hu i obs hpc2
    by_cases hut : u = t
    · subst hut; simp only [Function.update_same] at hpc2; simp at hpc2
    · simp only [Function.update_noteq hut] at hpc2; exact inv.lose_ok u hu i obs hpc2
  · intro u hu obs hpc2
    by_cases hut : u = t
    · subst hut; simp only [Function.update_same] at hpc2; simp at hpc2
    · simp only [Function.update_noteq hut] at hpc2; exact inv.loseRead_ok u hu obs hpc2
  · intro u hu r hpc2
    by_cases hut : u = t
    · subst hut; simp only [Function.update_same] at hpc2; simp at hpc2
    · simp only [Function.update_noteq hut] at hpc2; exact inv.done_ok u hu r hpc2
  · intro i hne
    obtain ⟨e1, e2, e3⟩ := inv.live_ok i hne
    refine ⟨e1, e2, ?_⟩
    rcases e3 with h | ⟨t0, ht0, hlive⟩
    · exact Or.inl h
    · by_cases h0t : t0 = t
      · subst h0t; rw [hpc] at hlive; simp [ownsLive] at hlive
      · exact Or.inr ⟨t0, ht0, by simp only [Function.update_noteq h0t]; exact hlive⟩

theorem syncInv_fastRead {M : Nat} {c : SyncConfig} {t : Nat} {v b : Nat}
    (ht : t < M) (hpc : c.thr t = SyncPC.fast v) (htab : c.table v = some b)
    (inv : SyncInv M c) :
    SyncInv M { c with thr := Function.update c.thr t (SyncPC.done b) } := by
  obtain ⟨hv1, hv2⟩ := inv.fast_ok t ht v hpc
  have hlv := (inv.live_ok v (by simp [htab])).1
  rw [htab] at hlv
  have hbv : b = v := (Option.some.injEq b v ▸ hlv : b = v)
  refine ⟨inv.next_pos, inv.fresh, ?_, ?_, ?_, ?_, ?_, ?_, ?_, ?_, ?_, ?_⟩
  · intro u hu i hown
    by_cases hut : u = t
    · subst hut; simp only [Function.update_same] at hown; simp [ownsIdx] at hown
    · simp only [Function.update_noteq hut] at hown; exact inv.own_pos u hu i hown
  · intro u v2 hu hv huv i hou
    by_cases hut : u = t
    · subst hut; simp only [Function.update_same] at hou; simp [ownsIdx] at hou
    · simp only [Function.update_noteq hut] at hou
      by_cases hvt : v2 = t
      · subst hvt; simp only [Function.update_same]; simp [ownsIdx]
      · simp only [Function.update_noteq hvt]; exact inv.own_inj u v2 hu hv huv i hou
  · rcases inv.slot_ok with h | ⟨h1, h2, h3, h4⟩
    · exact Or.inl h
    · refine Or.inr ⟨h1, h2, h3, ?_⟩
      intro u hu
      by_cases hut : u = t
      · subst hut; simp only [Function.update_same]; simp [ownsIdx]
      · simp only [Function.update_noteq hut]; exact h4 u hu
  · intro u hu v2 hpc2
    by_cases hut : u = t
    · subst hut; simp only [Function.update_same] at hpc2; simp at hpc2
    · simp only [Function.update_noteq hut] at hpc2; exact inv.fast_ok u hu v2 hpc2
  · intro u hu i hpc2
    by_cases hut : u = t
    · subst hut; simp only [Function.update_same] at hpc2; simp at hpc2
    · simp only [Function.update_noteq hut] at hpc2; exact inv.store_ok u hu i hpc2
  · intro u hu i hpc2
    by_cases hut : u = t
    · subst hut; simp only [Function.update_same] at hpc2; simp at hpc2
    · simp only [Function.update_noteq hut] at hpc2; exact inv.cas_ok u hu i hpc2
  · intro u hu i obs hpc2
    by_cases hut : u = t
    · subst hut; simp only [Function.update_same] at hpc2; simp at hpc2
    · simp only [Function.update_noteq hut] at hpc2; exact inv.lose_ok u hu i obs hpc2
  · intro u hu obs hpc2
    by_cases hut : u = t
    · subst hut; simp only [Function.update_same] at hpc2; simp at hpc2
    · simp only [Function.update_noteq hut] at hpc2; exact inv.loseRead_ok u hu obs hpc2
  · intro u hu r hpc2
    by_cases hut : u = t
    · subst hut; simp only [Function.update_same] at hpc2
      injection hpc2 with h2
      subst h2
      constructor
      · rw [← hv1]; exact hv2
      · rw [hbv, hv1]
    · simp only [Function.update_noteq hut] at hpc2; exact inv.done_ok u hu r hpc2
  · intro i hne
    obtain ⟨e1, e2, e3⟩ := inv.live_ok i hne
    refine ⟨e1, e2, ?_⟩
    rcases e3 with h | ⟨t0, ht0, hlive⟩
    · exact Or.inl h
    · by_cases h0t : t0 = t
      · subst h0t; rw [hpc] at hlive; simp [ownsLive] at hlive
      · exact Or.inr ⟨t0, ht0, by simp only [Function.update_noteq h0t]; exact hlive⟩

theorem syncInv_allocIndex {M : Nat} {c : SyncConfig} {t : Nat}
    (ht : t < M) (hpc : c.thr t = SyncPC.alloc)
    (inv : SyncInv M c) :
    SyncInv M { c with next := c.next + 1,
                       thr := Function.update c.thr t (SyncPC.store c.next) } := by
  refine ⟨?_, ?_, ?_, ?_, ?_, ?_, ?_, ?_, ?_, ?_, ?_, ?_⟩
  · exact Nat.le_succ_of_le inv.next_pos
  · intro i hi
    exact inv.fresh i (Nat.le_of_succ_le hi)
  · intro u hu i hown
    by_cases hut : u = t
    · subst hut; simp only [Function.update_same] at hown
      have hi : i = c.next := by
        rcases hown with h | h | ⟨obs, h⟩ <;> simp_all
      subst hi
      exact ⟨inv.next_pos, Nat.lt_succ_self _⟩
    · simp only [Function.update_noteq hut] at hown
      obtain ⟨h1, h2⟩ := inv.own_pos u hu i hown
      exact ⟨h1, Nat.lt_succ_of_lt h2⟩
  · intro u v hu hv huv i hou
    by_cases hut : u = t
    · subst hut; simp only [Function.update_same] at hou
      have hi : i = c.next := by
        rcases hou with h | h | ⟨obs, h⟩ <;> simp_all
      subst hi
      by_cases hvt : v = u
      · exact absurd hvt.symm huv
      · simp only [Function.update_noteq hvt]
        intro hov
        exact absurd (inv.own_pos v hv _ hov).2 (Nat.lt_irrefl _)
    · simp only [Function.update_noteq hut] at hou
      by_cases hvt : v = t
      · subst hvt; simp only [Function.update_same]
        intro hov
        have hi : i = c.next := by
          rcases hov with h | h | ⟨obs, h⟩ <;> simp_all
        subst hi
        exact absurd (inv.own_pos u hu _ hou).2 (Nat.lt_irrefl _)
      · simp only [Function.update_noteq hvt]; exact inv.own_inj u v hu hv huv i hou
  · rcases inv.slot_ok with h | ⟨h1, h2, h3, h4⟩
    · exact Or.inl h
    · refine Or.inr ⟨h1, Nat.lt_succ_of_lt h2, h3, ?_⟩
      intro u hu
      by_cases hut : u = t
      · subst hut; simp only [Function.update_same]
        intro hov
        have hi : c.slot = c.next := by
          rcases hov with h | h | ⟨obs, h⟩ <;> simp_all
        exact absurd (hi ▸ h2) (Nat.lt_irrefl _)
      · simp only [Function.update_noteq hut]; exact h4 u hu
  · intro u hu v2 hpc2
    by_cases hut : u = t
    · subst hut; simp only [Function.update_same] at hpc2; simp at hpc2
    · simp only [Function.update_noteq hut] at hpc2; exact inv.fast_ok u hu v2 hpc2
  · intro u hu i hpc2
    by_cases hut : u = t
    · subst hut; simp only [Function.update_same] at hpc2
      injection hpc2 with h2
      subst h2
      exact inv.fresh _ (Nat.le_refl _)
    · simp only [Function.update_noteq hut] at hpc2; exact inv.store_ok u hu i hpc2
  · intro u hu i hpc2
    by_cases hut : u = t
    · subst hut; simp only [Function.update_same] at hpc2; simp at hpc2
    · simp only [Function.update_noteq hut] at hpc2; exact inv.cas_ok u hu i hpc2
  · intro u hu i obs hpc2
    by_cases hut : u = t
    · subst hut; simp only [Function.update_same] at hpc2; simp at hpc2
    · simp only [Function.update_noteq hut] at hpc2; exact inv.lose_ok u hu i obs hpc2
  · intro u hu obs hpc2
    by_cases hut : u = t
    · subst hut; simp only [Function.update_same] at hpc2; simp at hpc2
    · simp only [Function.update_noteq hut] at hpc2; exact inv.loseRead_ok u hu obs hpc2
  · intro u hu r hpc2
    by_cases hut : u = t
    · subst hut; simp only [Function.update_same] at hpc2; simp at hpc2
    · simp only [Function.update_noteq hut] at hpc2; exact inv.done_ok u hu r hpc2
  · intro i hne
    obtain ⟨e1, e2, e3⟩ := inv.live_ok i hne
    refine ⟨e1, e2, ?_⟩
    rcases e3 with h | ⟨t0, ht0, hlive⟩
    · exact Or.inl h
    · by_cases h0t : t0 = t
      · subst h0t; rw [hpc] at hlive; simp [ownsLive] at hlive
      · exact Or.inr ⟨t0, ht0, by simp only [Function.update_noteq h0t]; exact hlive⟩

theorem syncInv_storeBlock {M : Nat} {c : SyncConfig} {t : Nat} {my : Nat}
    (ht : t < M) (hpc : c.thr t = SyncPC.store my)
    (inv : SyncInv M c) :
    SyncInv M { c with table := Function.update c.table my (some my),
                       thr := Function.update c.thr t (SyncPC.cas my) } := by
  have howns : ownsIdx (c.thr t) my := Or.inl hpc
  obtain ⟨hmy1, hmy2⟩ := inv.own_pos t ht my howns
  refine ⟨inv.next_pos, ?_, ?_, ?_, ?_, ?_, ?_, ?_, ?_, ?_, ?_, ?_⟩
  · intro i hi
    have : my ≠ i := Nat.ne_of_lt (Nat.lt_of_lt_of_le hmy2 hi)
    simp only [Function.update_noteq (Ne.symm this)]
    exact inv.fresh i hi
  · intro u hu i hown
    by_cases hut : u = t
    · subst hut; simp only [Function.update_same] at hown
      have hi : i = my := by
        rcases hown with h | h | ⟨obs, h⟩ <;> simp_all
      subst hi
      exact ⟨hmy1, hmy2⟩
    · simp only [Function.update_noteq hut] at hown; exact inv.own_pos u hu i hown
  · intro u v hu hv huv i hou
    by_cases hut : u = t
    · subst hut; simp only [Function.update_same] at hou
      have hi : i = my := by
        rcases hou with h | h | ⟨obs, h⟩ <;> simp_all
      subst hi
      by_cases hvt : v = u
      · exact absurd hvt.symm huv
      · simp only [Function.update_noteq hvt]
        exact inv.own_inj u v ht hv (Ne.symm hvt) i howns
    · simp only [Function.update_noteq hut] at hou
      by_cases hvt : v = t
      · subst hvt; simp only [Function.update_same]
        intro hov
        have hi : i = my := by
          rcases hov with h | h | ⟨obs, h⟩ <;> simp_all
        subst hi
        exact inv.own_inj v u ht hu (Ne.symm hut) i howns hou
      · simp only [Function.update_noteq hvt]; exact inv.own_inj u v hu hv huv i hou
  · rcases inv.slot_ok with h | ⟨h1, h2, h3, h4⟩
    · exact Or.inl h
    · have hms : my ≠ c.slot := fun he => h4 t ht (he ▸ howns)
      refine Or.inr ⟨h1, h2, ?_, ?_⟩
      · simp only [Function.update_noteq (Ne.symm hms)]; exact h3
      · intro u hu
        by_cases hut : u = t
        · subst hut; simp only [Function.update_same]
          intro hov
          have hi : c.slot = my := by
            rcases hov with h | h | ⟨obs, h⟩ <;> simp_all
          exact hms hi.symm
        · simp only [Function.update_noteq hut]; exact h4 u hu
  · intro u hu v2 hpc2
    by_cases hut : u = t
    · subst hut; simp only [Function.update_same] at hpc2; simp at hpc2
    · simp only [Function.update_noteq hut] at hpc2; exact inv.fast_ok u hu v2 hpc2
  · intro u hu i hpc2
    by_cases hut : u = t
    · subst hut; simp only [Function.update_same] at hpc2; simp at hpc2
    · simp only [Function.update_noteq hut] at hpc2
      have hoi : ownsIdx (c.thr u) i := Or.inl hpc2
      have : i ≠ my := fun he => inv.own_inj t u ht hu (Ne.symm hut) my howns (he ▸ hoi)
      simp only [Function.update_noteq this]
      exact inv.store_ok u hu i hpc2
  · intro u hu i hpc2
    by_cases hut : u = t
    · subst hut; simp only [Function.update_same] at hpc2
      injection hpc2 with h2
      subst h2
      simp only [Function.update_same]
    · simp only [Function.update_noteq hut] at hpc2
      have hoi : ownsIdx (c.thr u) i := Or.inr (Or.inl hpc2)
      have : i ≠ my := fun he => inv.own_inj t u ht hu (Ne.symm hut) my howns (he ▸ hoi)
      simp only [Function.update_noteq this]
      exact inv.cas_ok u hu i hpc2
  · intro u hu i obs hpc2
    by_cases hut : u = t
    · subst hut; simp only [Function.update_same] at hpc2; simp at hpc2
    · simp only [Function.update_noteq hut] at hpc2
      have hoi : ownsIdx (c.thr u) i := Or.inr (Or.inr ⟨obs, hpc2⟩)
      have : i ≠ my := fun he => inv.own_inj t u ht hu (Ne.symm hut) my howns (he ▸ hoi)
      obtain ⟨g1, g2, g3⟩ := inv.lose_ok u hu i obs hpc2
      refine ⟨g1, g2, ?_⟩
      simp only [Function.update_noteq this]
      exact g3
  · intro u hu obs hpc2
    by_cases hut : u = t
    · subst hut; simp only [Function.update_same] at hpc2; simp at hpc2
    · simp only [Function.update_noteq hut] at hpc2; exact inv.loseRead_ok u hu obs hpc2
  · intro u hu r hpc2
    by_cases hut : u = t
    · subst hut; simp only [Function.update_same] at hpc2; simp at hpc2
    · simp only [Function.update_noteq hut] at hpc2; exact inv.done_ok u hu r hpc2
  · intro i hne
    by_cases him : i = my
    · subst him
      refine ⟨by simp only [Function.update_same], hmy1, ?_⟩
      exact Or.inr ⟨t, ht, Or.inl (by simp only [Function.update_same])⟩
    · simp only [Function.update_noteq him] at hne ⊢
      obtain ⟨e1, e2, e3⟩ := inv.live_ok i hne
      refine ⟨e1, e2, ?_⟩
      rcases e3 with h | ⟨t0, ht0, hlive⟩
      · exact Or.inl h
      · by_cases h0t : t0 = t
        · subst h0t; rw [hpc] at hlive; simp [ownsLive] at hlive
        · exact Or.inr ⟨t0, ht0, by simp only [Function.update_noteq h0t]; exact hlive⟩

theorem syncInv_casWin {M : Nat} {c : SyncConfig} {t : Nat} {my : Nat}
    (ht : t < M) (hpc : c.thr t = SyncPC.cas my) (hs : c.slot = 0)
    (inv : SyncInv M c) :
    SyncInv M { c with slot := my,
                       thr := Function.update c.thr t (SyncPC.done my) } := by
  have howns : ownsIdx (c.thr t) my := Or.inr (Or.inl hpc)
  obtain ⟨hmy1, hmy2⟩ := inv.own_pos t ht my howns
  have htab := inv.cas_ok t ht my hpc
  refine ⟨inv.next_pos, inv.fresh, ?_, ?_, ?_, ?_, ?_, ?_, ?_, ?_, ?_, ?_⟩
  · intro u hu i hown
    by_cases hut : u = t
    · subst hut; simp only [Function.update_same] at hown; simp [ownsIdx] at hown
    · simp only [Function.update_noteq hut] at hown; exact inv.own_pos u hu i hown
  · intro u v hu hv huv i hou
    by_cases hut : u = t
    · subst hut; simp only [Function.update_same] at hou; simp [ownsIdx] at hou
    · simp only [Function.update_noteq hut] at hou
      by_cases hvt : v = t
      · subst hvt; simp only [Function.update_same]; simp [ownsIdx]
      · simp only [Function.update_noteq hvt]; exact inv.own_inj u v hu hv huv i hou
  · refine Or.inr ⟨hmy1, hmy2, htab, ?_⟩
    intro u hu
    by_cases hut : u = t
    · subst hut; simp only [Function.update_same]; simp [ownsIdx]
    · simp only [Function.update_noteq hut]
      exact inv.own_inj t u ht hu (Ne.symm hut) my howns
  · intro u hu v hpc2
    by_cases hut : u = t
    · subst hut; simp only [Function.update_same] at hpc2; simp at hpc2
    · simp only [Function.update_noteq hut] at hpc2
      obtain ⟨h1, h2⟩ := inv.fast_ok u hu v hpc2
      exact absurd (h1.trans hs) h2
  · intro u hu i hpc2
    by_cases hut : u = t
    · subst hut; simp only [Function.update_same] at hpc2; simp at hpc2
    · simp only [Function.update_noteq hut] at hpc2; exact inv.store_ok u hu i hpc2
  · intro u hu i hpc2
    by_cases hut : u = t
    · subst hut; simp only [Function.update_same] at hpc2; simp at hpc2
    · simp only [Function.update_noteq hut] at hpc2; exact inv.cas_ok u hu i hpc2
  · intro u hu i obs hpc2
    by_cases hut : u = t
    · subst hut; simp only [Function.update_same] at hpc2; simp at hpc2
    · simp only [Function.update_noteq hut] at hpc2
      obtain ⟨h1, h2, h3⟩ := inv.lose_ok u hu i obs hpc2
      exact absurd (h1.trans hs) h2
  · intro u hu obs hpc2
    by_cases hut : u = t
    · subst hut; simp only [Function.update_same] at hpc2; simp at hpc2
    · simp only [Function.update_noteq hut] at hpc2
      obtain ⟨h1, h2⟩ := inv.loseRead_ok u hu obs hpc2
      exact absurd (h1.trans hs) h2
  · intro u hu r hpc2
    by_cases hut : u = t
    · subst hut; simp only [Function.update_same] at hpc2
      injection hpc2 with h2
      subst h2
      exact ⟨Nat.one_le_iff_ne_zero.mp hmy1, rfl⟩
    · simp only [Function.update_noteq hut] at hpc2
      obtain ⟨h1, h2⟩ := inv.done_ok u hu r hpc2
      exact absurd hs h1
  · intro i hne
    obtain ⟨e1, e2, e3⟩ := inv.live_ok i hne
    refine ⟨e1, e2, ?_⟩
    rcases e3 with h | ⟨t0, ht0, hlive⟩
    · exfalso
      rw [h, hs] at e2
      exact Nat.not_succ_le_zero 0 e2
    · by_cases h0t : t0 = t
      · subst h0t
        rw [hpc] at hlive
        have hi : i = my := by
          rcases hlive with h | ⟨obs, h⟩ <;> simp_all
        exact Or.inl hi
      · exact Or.inr ⟨t0, ht0, by simp only [Function.update_noteq h0t]; exact hlive⟩

theorem syncInv_casLose {M : Nat} {c : SyncConfig} {t : Nat} {my : Nat}
    (ht : t < M) (hpc : c.thr t = SyncPC.cas my) (hs : c.slot ≠ 0)
    (inv : SyncInv M c) :
    SyncInv M { c with thr := Function.update c.thr t (SyncPC.lose my c.slot) } := by
  have howns : ownsIdx (c.thr t) my := Or.inr (Or.inl hpc)
  have htab := inv.cas_ok t ht my hpc
  refine ⟨inv.next_pos, inv.fresh, ?_, ?_, ?_, ?_, ?_, ?_, ?_, ?_, ?_, ?_⟩
  · intro u hu i hown
    by_cases hut : u = t
    · subst hut; simp only [Function.update_same] at hown
      have hi : i = my := by
        rcases hown with h | h | ⟨obs, h⟩ <;> simp_all
      subst hi
      exact inv.own_pos u hu i howns
    · simp only [Function.update_noteq hut] at hown; exact inv.own_pos u hu i hown
  · intro u v hu hv huv i hou
    by_cases hut : u = t
    · subst hut; simp only [Function.update_same] at hou
      have hi : i = my := by
        rcases hou with h | h | ⟨obs, h⟩ <;> simp_all
      subst hi
      by_cases hvt : v = u
      · exact absurd hvt.symm huv
      · simp only [Function.update_noteq hvt]
        exact inv.own_inj u v ht hv (Ne.symm hvt) i howns
    · simp only [Function.update_noteq hut] at hou
      by_cases hvt : v = t
      · subst hvt; simp only [Function.update_same]
        intro hov
        have hi : i = my := by
          rcases hov with h | h | ⟨obs, h⟩ <;> simp_all
        subst hi
        exact inv.own_inj v u ht hu (Ne.symm hut) i howns hou
      · simp only [Function.update_noteq hvt]; exact inv.own_inj u v hu hv huv i hou
  · rcases inv.slot_ok with h | ⟨h1, h2, h3, h4⟩
    · exact absurd h hs
    · refine Or.inr ⟨h1, h2, h3, ?_⟩
      intro u hu
      by_cases hut : u = t
      · subst hut; simp only [Function.update_same]
        intro hov
        have hi : c.slot = my := by
          rcases hov with h | h | ⟨obs, h⟩ <;> simp_all
        exact h4 u hu (hi ▸ howns)
      · simp only [Function.update_noteq hut]; exact h4 u hu
  · intro u hu v hpc2
    by_cases hut : u = t
    · subst hut; simp only [Function.update_same] at hpc2; simp at hpc2
    · simp only [Function.update_noteq hut] at hpc2; exact inv.fast_ok u hu v hpc2
  · intro u hu i hpc2
    by_cases hut : u = t
    · subst hut; simp only [Function.update_same] at hpc2; simp at hpc2
    · simp only [Function.update_noteq hut] at hpc2; exact inv.store_ok u hu i hpc2
  · intro u hu i hpc2
    by_cases hut : u = t
    · subst hut; simp only [Function.update_same] at hpc2; simp at hpc2
    · simp only [Function.update_noteq hut] at hpc2; exact inv.cas_ok u hu i hpc2
  · intro u hu i obs hpc2
    by_cases hut : u = t
    · subst hut; simp only [Function.update_same] at hpc2
      injection hpc2 with h1 h2
      subst h1
      subst h2
      exact ⟨rfl, hs, htab⟩
    · simp only [Function.update_noteq hut] at hpc2; exact inv.lose_ok u hu i obs hpc2
  · intro u hu obs hpc2
    by_cases hut : u = t
    · subst hut; simp only [Function.update_same] at hpc2; simp at hpc2
    · simp only [Function.update_noteq hut] at hpc2; exact inv.loseRead_ok u hu obs hpc2
  · intro u hu r hpc2
    by_cases hut : u = t
    · subst hut; simp only [Function.update_same] at hpc2; simp at hpc2
    · simp only [Function.update_noteq hut] at hpc2; exact inv.done_ok u hu r hpc2
  · intro i hne
    obtain ⟨e1, e2, e3⟩ := inv.live_ok i hne
    refine ⟨e1, e2, ?_⟩
    rcases e3 with h | ⟨t0, ht0, hlive⟩
    · exact Or.inl h
    · by_cases h0t : t0 = t
      · subst h0t
        rw [hpc] at hlive
        have hi : i = my := by
          rcases hlive with h | ⟨obs, h⟩ <;> simp_all
        subst hi
        refine Or.inr ⟨t0, ht0, ?_⟩
        simp only [Function.update_same]
        exact Or.inr ⟨c.slot, rfl⟩
      · exact Or.inr ⟨t0, ht0, by simp only [Function.update_noteq h0t]; exact hlive⟩

theorem syncInv_loseNull {M : Nat} {c : SyncConfig} {t : Nat} {my obs : Nat}
    (ht : t < M) (hpc : c.thr t = SyncPC.lose my obs)
    (inv : SyncInv M c) :
    SyncInv M { c with table := Function.update c.table my none,
                       thr := Function.update c.thr t (SyncPC.loseRead obs) } := by
  have howns : ownsIdx (c.thr t) my := Or.inr (Or.inr ⟨obs, hpc⟩)
  obtain ⟨hobs1, hobs2, htab⟩ := inv.lose_ok t ht my obs hpc
  refine ⟨inv.next_pos, ?_, ?_, ?_, ?_, ?_, ?_, ?_, ?_, ?_, ?_, ?_⟩
  · intro i hi
    by_cases him : i = my
    · subst him; simp only [Function.update_same]
    · simp only [Function.update_noteq him]; exact inv.fresh i hi
  · intro u hu i hown
    by_cases hut : u = t
    · subst hut; simp only [Function.update_same] at hown; simp [ownsIdx] at hown
    · simp only [Function.update_noteq hut] at hown; exact inv.own_pos u hu i hown
  · intro u v hu hv huv i hou
    by_cases hut : u = t
    · subst hut; simp only [Function.update_same] at hou; simp [ownsIdx] at hou
    · simp only [Function.update_noteq hut] at hou
      by_cases hvt : v = t
      · subst hvt; simp only [Function.update_same]; simp [ownsIdx]
      · simp only [Function.update_noteq hvt]; exact inv.own_inj u v hu hv huv i hou
  · rcases inv.slot_ok with h | ⟨h1, h2, h3, h4⟩
    · exact absurd h (fun he => hobs2 (hobs1.trans he))
    · have hms : my ≠ c.slot := fun he => h4 t ht (he ▸ howns)
      refine Or.inr ⟨h1, h2, ?_, ?_⟩
      · simp only [Function.update_noteq (Ne.symm hms)]; exact h3
      · intro u hu
        by_cases hut : u = t
        · subst hut; simp only [Function.update_same]; simp [ownsIdx]
        · simp only [Function.update_noteq hut]; exact h4 u hu
  · intro u hu v hpc2
    by_cases hut : u = t
    · subst hut; simp only [Function.update_same] at hpc2; simp at hpc2
    · simp only [Function.update_noteq hut] at hpc2; exact inv.fast_ok u hu v hpc2
  · intro u hu i hpc2
    by_cases hut : u = t
    · subst hut; simp only [Function.update_same] at hpc2; simp at hpc2
    · simp only [Function.update_noteq hut] at hpc2
      have hoi : ownsIdx (c.thr u) i := Or.inl hpc2
      have : i ≠ my := fun he => inv.own_inj t u ht hu (Ne.symm hut) my howns (he ▸ hoi)
      simp only [Function.update_noteq this]
      exact inv.store_ok u hu i hpc2
  · intro u hu i hpc2
    by_cases hut : u = t
    · subst hut; simp only [Function.update_same] at hpc2; simp at hpc2
    · simp only [Function.update_noteq hut] at hpc2
      have hoi : ownsIdx (c.thr u) i := Or.inr (Or.inl hpc2)
      have : i ≠ my := fun he => inv.own_inj t u ht hu (Ne.symm hut) my howns (he ▸ hoi)
      simp only [Function.update_noteq this]
      exact inv.cas_ok u hu i hpc2
  · intro u hu i obs2 hpc2
    by_cases hut : u = t
    · subst hut; simp only [Function.update_same] at hpc2; simp at hpc2
    · simp only [Function.update_noteq hut] at hpc2
      have hoi : ownsIdx (c.thr u) i := Or.inr (Or.inr ⟨obs2, hpc2⟩)
      have : i ≠ my := fun he => inv.own_inj t u ht hu (Ne.symm hut) my howns (he ▸ hoi)
      obtain ⟨g1, g2, g3⟩ := inv.lose_ok u hu i obs2 hpc2
      refine ⟨g1, g2, ?_⟩
      simp only [Function.update_noteq this]
      exact g3
  · intro u hu obs2 hpc2
    by_cases hut : u = t
    · subst hut; simp only [Function.update_same] at hpc2
      injection hpc2 with h2
      subst h2
      exact ⟨hobs1, hobs2⟩
    · simp only [Function.update_noteq hut] at hpc2; exact inv.loseRead_ok u hu obs2 hpc2
  · intro u hu r hpc2
    by_cases hut : u = t
    · subst hut; simp only [Function.update_same] at hpc2; simp at hpc2
    · simp only [Function.update_noteq hut] at hpc2; exact inv.done_ok u hu r hpc2
  · intro i hne
    by_cases him : i = my
    · subst him; simp only [Function.update_same] at hne; exact absurd rfl hne
    · simp only [Function.update_noteq him] at hne ⊢
      obtain ⟨e1, e2, e3⟩ := inv.live_ok i hne
      refine ⟨e1, e2, ?_⟩
      rcases e3 with h | ⟨t0, ht0, hlive⟩
      · exact Or.inl h
      · by_cases h0t : t0 = t
        · subst h0t
          rw [hpc] at hlive
          have : i = my := by
            rcases hlive with h | ⟨obs3, h⟩ <;> simp_all
          exact absurd this him
        · exact Or.inr ⟨t0, ht0, by simp only [Function.update_noteq h0t]; exact hlive⟩

theorem syncInv_loseReadStep {M : Nat} {c : SyncConfig} {t : Nat} {obs b : Nat}
    (ht : t < M) (hpc : c.thr t = SyncPC.loseRead obs) (htab : c.table obs = some b)
    (inv : SyncInv M c) :
    SyncInv M { c with thr := Function.update c.thr t (SyncPC.done b) } := by
  obtain ⟨hobs1, hobs2⟩ := inv.loseRead_ok t ht obs hpc
  have hlv := (inv.live_ok obs (by simp [htab])).1
  rw [htab] at hlv
  have hbv : b = obs := (Option.some.injEq b obs ▸ hlv : b = obs)
  refine ⟨inv.next_pos, inv.fresh, ?_, ?_, ?_, ?_, ?_, ?_, ?_, ?_, ?_, ?_⟩
  · intro u hu i hown
    by_cases hut : u = t
    · subst hut; simp only [Function.update_same] at hown; simp [ownsIdx] at hown
    · simp only [Function.update_noteq hut] at hown; exact inv.own_pos u hu i hown
  · intro u v hu hv huv i hou
    by_cases hut : u = t
    · subst hut; simp only [Function.update_same] at hou; simp [ownsIdx] at hou
    · simp only [Function.update_noteq hut] at hou
      by_cases hvt : v = t
      · subst hvt; simp only [Function.update_same]; simp [ownsIdx]
      · simp only [Function.update_noteq hvt]; exact inv.own_inj u v hu hv huv i hou
  · rcases inv.slot_ok with h | ⟨h1, h2, h3, h4⟩
    · exact Or.inl h
    · refine Or.inr ⟨h1, h2, h3, ?_⟩
      intro u hu
      by_cases hut : u = t
      · subst hut; simp only [Function.update_same]; simp [ownsIdx]
      · simp only [Function.update_noteq hut]; exact h4 u hu
  · intro u hu v hpc2
    by_cases hut : u = t
    · subst hut; simp only [Function.update_same] at hpc2; simp at hpc2
    · simp only [Function.update_noteq hut] at hpc2; exact inv.fast_ok u hu v hpc2
  · intro u hu i hpc2
    by_cases hut : u = t
    · subst hut; simp only [Function.update_same] at hpc2; simp at hpc2
    · simp only [Function.update_noteq hut] at hpc2; exact inv.store_ok u hu i hpc2
  · intro u hu i hpc2
    by_cases hut : u = t
    · subst hut; simp only [Function.update_same] at hpc2; simp at hpc2
    · simp only [Function.update_noteq hut] at hpc2; exact inv.cas_ok u hu i hpc2
  · intro u hu i obs2 hpc2
    by_cases hut : u = t
    · subst hut; simp only [Function.update_same] at hpc2; simp at hpc2
    · simp only [Function.update_noteq hut] at hpc2; exact inv.lose_ok u hu i obs2 hpc2
  · intro u hu obs2 hpc2
    by_cases hut : u = t
    · subst hut; simp only [Function.update_same] at hpc2; simp at hpc2
    · simp only [Function.update_noteq hut] at hpc2; exact inv.loseRead_ok u hu obs2 hpc2
  · intro u hu r hpc2
    by_cases hut : u = t
    · subst hut; simp only [Function.update_same] at hpc2
      injection hpc2 with h2
      subst h2
      refine ⟨fun he => hobs2 (hobs1.trans he), ?_⟩
      rw [hbv, hobs1]
    · simp only [Function.update_noteq hut] at hpc2; exact inv.done_ok u hu r hpc2
  · intro i hne
    obtain ⟨e1, e2, e3⟩ := inv.live_ok i hne
    refine ⟨e1, e2, ?_⟩
    rcases e3 with h | ⟨t0, ht0, hlive⟩
    · exact Or.inl h
    · by_cases h0t : t0 = t
      · subst h0t; rw [hpc] at hlive; simp [ownsLive] at hlive
      · exact Or.inr ⟨t0, ht0, by simp only [Function.update_noteq h0t]; exact hlive⟩

theorem syncInv_step {M : Nat} {c c2 : SyncConfig}
    (h : SyncStep M c c2) (inv : SyncInv M c) : SyncInv M c2 := by
  cases h with
  | readSlotZero t ht hpc hs => exact syncInv_readSlotZero ht hpc hs inv
  | readSlotAssigned t ht hpc hs => exact syncInv_readSlotAssigned ht hpc hs inv
  | fastRead t ht v b hpc htab => exact syncInv_fastRead ht hpc htab inv
  | allocIndex t ht hpc => exact syncInv_allocIndex ht hpc inv
  | storeBlock t ht my hpc => exact syncInv_storeBlock ht hpc inv
  | casWin t ht my hpc hs => exact syncInv_casWin ht hpc hs inv
  | casLose t ht my hpc hs => exact syncInv_casLose ht hpc hs inv
  | loseNull t ht my obs hpc => exact syncInv_loseNull ht hpc inv
  | loseReadStep t ht obs b hpc htab => exact syncInv_loseReadStep ht hpc htab inv

theorem syncInv_reachable {M : Nat} {c : SyncConfig}
    (h : SyncReachable M c) : SyncInv M c := by
  induction h with
  | refl => exact syncInv_init M
  | tail hsteps hstep ih => exact syncInv_step hstep ih

theorem syncDemo_reachable : SyncReachable 1 syncDemoFinal := by
  have h1 : SyncStep 1 syncInit syncDemo1 :=
    SyncStep.readSlotZero syncInit 0 (by decide) rfl rfl
  have h2 : SyncStep 1 syncDemo1 syncDemo2 :=
    SyncStep.allocIndex syncDemo1 0 (by decide) rfl
  have h3 : SyncStep 1 syncDemo2 syncDemo3 :=
    SyncStep.storeBlock syncDemo2 0 (by decide) 1 rfl
  have h4 : SyncStep 1 syncDemo3 syncDemoFinal :=
    SyncStep.casWin syncDemo3 0 (by decide) 1 rfl rfl
  exact Relation.ReflTransGen.tail
    (Relation.ReflTransGen.tail
      (Relation.ReflTransGen.tail
        (Relation.ReflTransGen.tail Relation.ReflTransGen.refl h1) h2) h3) h4

/-! Claim theorems about the task engine. -/

theorem registerAll_pending (t : Task) (h : t.f_status = 0)
    (cs : List TaskContinuation) :
    registerAll (some t) cs =
      some { t with f_continuations := cs.reverse ++ t.f_continuations } := by
  induction cs generalizing t with
  | nil => simp [registerAll]
  | cons c cs ih =>
    simp only [registerAll, List.foldl_cons]
    have hstep : (task_add_continuation (some t) c).1 =
        some { t with f_continuations := c :: t.f_continuations } := by
      simp [task_add_continuation, h]
    rw [hstep]
    have := ih { t with f_continuations := c :: t.f_continuations } h
    simp only [registerAll] at this
    rw [this]
    simp

/-- C1 (counterexample): with two continuations registered on a pending
task, completion does not run them in registration order. -/
theorem task_complete_registration_order_counterexample :
    (task_complete (registerAll (some task_create_pending)
        [{ callback := 0, state := 0 }, { callback := 1, state := 1 }])).2 ≠
      [{ callback := 0, state := 0 }, { callback := 1, state := 1 }] := by
  decide

/-- C1 (amended): complete (and fault) on a pending task atomically
detaches the whole continuation list and runs every queued continuation
as one batch, in reverse registration order — task_add_continuation
pushes at the head of the list and run_continuations walks from the
head. -/
theorem task_complete_runs_in_reverse_registration_order
    (t : Task) (h : t.f_status = 0) (cs : List TaskContinuation) :
    task_complete (registerAll (some t) cs) =
      (some { t with f_status := 1, f_continuations := [] },
        cs.reverse ++ t.f_continuations) ∧
    ∀ ex, task_fault (registerAll (some t) cs) ex =
      (some { t with f_status := 2, f_exception := ex, f_continuations := [] },
        cs.reverse ++ t.f_continuations) := by
  rw [registerAll_pending t h cs]
  constructor
  · simp [task_complete, task_complete_core, run_continuations, h]
  · intro ex
    simp [task_fault, task_fault_core, run_continuations, h]

theorem task_complete_runs_in_reverse_registration_order_witness :
    task_create_pending.f_status = 0 ∧
    task_complete (registerAll (some task_create_pending)
        [{ callback := 0, state := 0 }, { callback := 1, state := 1 }]) =
      (some { task_create_pending with f_status := 1, f_continuations := [] },
        [{ callback := 0, state := 0 },
         { callback := 1, state := 1 }].reverse ++
          task_create_pending.f_continuations) :=
  ⟨rfl,
   (task_complete_runs_in_reverse_registration_order task_create_pending rfl
      [{ callback := 0, state := 0 }, { callback := 1, state := 1 }]).1⟩

/-- C2: once the status is no longer pending, complete and fault are
silent no-ops: the status, the stored exception and the whole task are
unchanged and no continuation runs. -/
theorem task_status_frozen_once_final (t : Task) (h : 1 ≤ t.f_status) :
    task_complete (some t) = (some t, []) ∧
    ∀ ex, task_fault (some t) ex = (some t, []) := by
  constructor
  · simp [task_complete, task_complete_core, h]
  · intro ex
    simp [task_fault, task_fault_core, h]

theorem task_status_frozen_once_final_witness :
    1 ≤ task_create_completed.f_status ∧
    task_complete (some task_create_completed) = (some task_create_completed, []) :=
  ⟨by decide, (task_status_frozen_once_final task_create_completed (by decide)).1⟩

/-- C5: both compare_exchange variants return the value observed at the
location before the attempt (not a boolean), and the location afterwards
holds the new value exactly when the prior value equalled the
comparand, else its prior value. -/
theorem compare_exchange_returns_prior_value
    (mem : Nat → Int) (location : Nat) (value comparand : Int) :
    (compare_exchange_i32 mem location value comparand).1 = mem location ∧
    (compare_exchange_i32 mem location value comparand).2 location =
      (if mem location = comparand then value else mem location) ∧
    (compare_exchange_i64 mem location value comparand).1 = mem location ∧
    (compare_exchange_i64 mem location value comparand).2 location =
      (if mem location = comparand then value else mem location) := by
  refine ⟨rfl, ?_, rfl, ?_⟩ <;>
  · by_cases h : mem location = comparand <;>
      simp [compare_exchange_i32, compare_exchange_i64, h]

/-- C8: dispose sets the source state to 2 whatever it was; a token over
the disposed source reports no cancellation request, because a request
is reported exactly when the source exists and its state equals 1. -/
theorem cts_dispose_unconditional :
    (∀ c : CancellationTokenSource, cts_dispose (some c) = some { f__state := 2 }) ∧
    (∀ c : CancellationTokenSource,
        ct_is_cancellation_requested (cts_get_token (cts_dispose (some c))) = false) ∧
    (∀ d : Option CancellationTokenSource,
        (ct_is_cancellation_requested (cts_get_token d) = true ↔
          ∃ e, d = some e ∧ e.f__state = 1)) := by
  refine ⟨fun c => rfl, fun c => rfl, ?_⟩
  intro d
  cases d with
  | none => simp [ct_is_cancellation_requested, cts_get_token]
  | some e => simp [ct_is_cancellation_requested, cts_get_token]

/-- C9: every public task operation treats a null task as an immediate
no-op, and the try_set variants report false. -/
theorem null_task_operations_no_op :
    task_complete none = (none, []) ∧
    (∀ ex, task_fault none ex = (none, [])) ∧
    (∀ c, task_add_continuation none c = (none, [])) ∧
    task_wait_spins none = false ∧
    tcs_try_set_result none = ((none, []), false) ∧
    (∀ ex, tcs_try_set_exception none ex = ((none, []), false)) ∧
    tcs_try_set_canceled none = ((none, []), false) := by
  refine ⟨rfl, fun ex => rfl, fun c => rfl, rfl, rfl, fun ex => rfl, rfl⟩

/-- C10: on a pending task, try_set_canceled (through tcs_set_canceled)
stores the Faulted status code 2 — task.h has no distinct canceled code —
with a non-null freshly built OperationCanceledException, and reports
true. -/
theorem tcs_set_canceled_faults_with_oce (t : Task) (h : t.f_status = 0) :
    tcs_try_set_canceled (some t) =
      ((some { t with f_status := 2,
                      f_exception := some { message := operation_canceled_message },
                      f_continuations := [] },
        run_continuations t.f_continuations), true) ∧
    (tcs_set_canceled (some t)).1 =
      some { t with f_status := 2,
                    f_exception := some { message := operation_canceled_message },
                    f_continuations := [] } := by
  constructor
  · simp [tcs_try_set_canceled, tcs_set_canceled, task_fault, task_fault_core, h,
      run_continuations]
  · simp [tcs_set_canceled, task_fault, task_fault_core, h]

theorem tcs_set_canceled_faults_with_oce_witness :
    task_create_pending.f_status = 0 ∧
    tcs_try_set_canceled (some task_create_pending) =
      ((some { task_create_pending with
                f_status := 2,
                f_exception := some { message := operation_canceled_message },
                f_continuations := [] },
        run_continuations task_create_pending.f_continuations), true) :=
  ⟨rfl, (tcs_set_canceled_faults_with_oce task_create_pending rfl).1⟩

/-! Counting lemmas for the registration loops of the combinators. -/

theorem initially_done_count_cons_none (l : List (Option Task)) :
    initially_done_count (none :: l) = initially_done_count l + 1 := by
  simp [initially_done_count, List.countP_cons]

theorem initially_done_count_cons_done (t : Task) (h : 1 ≤ t.f_status)
    (l : List (Option Task)) :
    initially_done_count (some t :: l) = initially_done_count l + 1 := by
  simp [initially_done_count, List.countP_cons, h]

theorem initially_done_count_cons_pending (t : Task) (h : t.f_status < 1)
    (l : List (Option Task)) :
    initially_done_count (some t :: l) = initially_done_count l := by
  simp [initially_done_count, List.countP_cons, Nat.not_le.mpr h]

theorem when_any_build_iterate (l : List (Option Task)) (s : WhenAnyState) :
    l.foldl when_any_entry_step s =
      (when_any_callback)^[initially_done_count l] s := by
  induction l generalizing s with
  | nil => simp [initially_done_count]
  | cons e l ih =>
    cases e with
    | none =>
      rw [List.foldl_cons, initially_done_count_cons_none]
      rw [show when_any_entry_step s none = when_any_callback s from rfl]
      rw [ih (when_any_callback s), ← Function.iterate_succ_apply]
    | some t =>
      rw [List.foldl_cons]
      by_cases hst : t.f_status < 1
      · rw [initially_done_count_cons_pending t hst]
        rw [show when_any_entry_step s (some t) = s from by
          simp [when_any_entry_step, hst]]
        exact ih s
      · rw [initially_done_count_cons_done t (Nat.not_lt.mp hst)]
        rw [show when_any_entry_step s (some t) = when_any_callback s from by
          simp [when_any_entry_step, hst]]
        rw [ih (when_any_callback s), ← Function.iterate_succ_apply]

theorem when_all_build_iterate (l : List (Option Task)) (s : WhenAllState) :
    l.foldl when_all_entry_step s =
      (when_all_callback)^[initially_done_count l] s := by
  induction l generalizing s with
  | nil => simp [initially_done_count]
  | cons e l ih =>
    cases e with
    | none =>
      rw [List.foldl_cons, initially_done_count_cons_none]
      rw [show when_all_entry_step s none = when_all_callback s from rfl]
      rw [ih (when_all_callback s), ← Function.iterate_succ_apply]
    | some t =>
      rw [List.foldl_cons]
      by_cases hst : t.f_status < 1
      · rw [initially_done_count_cons_pending t hst]
        rw [show when_all_entry_step s (some t) = s from by
          simp [when_all_entry_step, hst]]
        exact ih s
      · rw [initially_done_count_cons_done t (Nat.not_lt.mp hst)]
        rw [show when_all_entry_step s (some t) = when_all_callback s from by
          simp [when_all_entry_step, hst]]
        rw [ih (when_all_callback s), ← Function.iterate_succ_apply]

theorem when_any_callback_stable (s : WhenAnyState) :
    when_any_callback (when_any_callback s) = when_any_callback s := by
  by_cases h : s.completed = false
  · simp [when_any_callback, h]
  · simp [when_any_callback, h]

theorem when_any_iterate_stable (n : Nat) :
    (when_any_callback)^[n + 1] when_any_init =
      when_any_callback when_any_init := by
  induction n with
  | zero => rfl
  | succ n ih => rw [Function.iterate_succ_apply', ih, when_any_callback_stable]

/-- C3: the registration loop of when_any forwards each initially
finished or null entry to the callback, and thereafter each input
completion is one more callback invocation on the shared state; the
first invocation wins the compare-and-swap — it completes the result
task and sets the flag — and every later invocation leaves the state
exactly as the first one did, so the result is completed exactly once. -/
theorem when_any_completes_exactly_once :
    (∀ l : List (Option Task), l ≠ [] →
        (task_when_any (some l)).2 =
          some ((when_any_callback)^[initially_done_count l] when_any_init)) ∧
    (when_any_callback when_any_init).result_task.f_status = 1 ∧
    (when_any_callback when_any_init).completed = true ∧
    (∀ n : Nat, (when_any_callback)^[n + 1] when_any_init =
        when_any_callback when_any_init) := by
  refine ⟨?_, by decide, by decide, when_any_iterate_stable⟩
  intro l hl
  simp [task_when_any, List.length_eq_zero, hl, when_any_build_iterate]

theorem when_any_completes_exactly_once_witness :
    ([none] : List (Option Task)) ≠ [] ∧
    (task_when_any (some [none])).2 =
      some ((when_any_callback)^[initially_done_count [none]] when_any_init) :=
  ⟨by decide, when_any_completes_exactly_once.1 [none] (by decide)⟩

theorem when_all_iterate_closed (n k : Nat) (hn : 1 ≤ n) (hk : k ≤ n) :
    (when_all_callback)^[k] (when_all_init n) =
      { result_task := if k = n then task_create_completed else task_create_pending,
        remaining := (n : Int) - (k : Int) } := by
  induction k with
  | zero =>
    rw [Function.iterate_zero_apply]
    rw [if_neg (show ¬ (0 = n) from by omega)]
    simp [when_all_init]
  | succ k ih =>
    have hk1 : k ≤ n := Nat.le_of_succ_le hk
    rw [Function.iterate_succ_apply', ih hk1]
    have hkn : ¬ (k = n) := by omega
    rw [if_neg hkn]
    by_cases hlast : k + 1 = n
    · have hrem : (n : Int) - (k : Int) = 1 := by omega
      rw [if_pos hlast, hrem]
      have hcb : when_all_callback
          { result_task := task_create_pending, remaining := (1 : Int) } =
          { result_task := task_create_completed, remaining := 0 } := by decide
      rw [hcb]
      congr 1
      omega
    · have hrem : ¬ ((n : Int) - (k : Int) = 1) := by omega
      rw [if_neg hlast]
      simp only [when_all_callback]
      rw [if_neg hrem]
      congr 1
      omega

/-- C4: when_all on a null or empty array returns a fresh completed task
with no continuations and allocates no counter state; on a non-empty
array of length n the counter starts at n, every callback invocation
(one per input completion, null entries counted immediately) decrements
it, and the result task has status 1 exactly when all n invocations have
happened, i.e. when the counter reached zero. -/
theorem when_all_counter_semantics :
    task_when_all none = (task_create_completed, none) ∧
    task_when_all (some []) = (task_create_completed, none) ∧
    (∀ l : List (Option Task), l ≠ [] →
        (task_when_all (some l)).2 =
          some ((when_all_callback)^[initially_done_count l]
            (when_all_init l.length))) ∧
    (∀ n : Nat, (when_all_init n).remaining = (n : Int)) ∧
    (∀ n k : Nat, 1 ≤ n → k ≤ n →
        ((when_all_callback)^[k] (when_all_init n)).remaining =
          (n : Int) - (k : Int) ∧
        (((when_all_callback)^[k] (when_all_init n)).result_task.f_status = 1 ↔
          k = n)) := by
  refine ⟨rfl, rfl, ?_, fun n => rfl, ?_⟩
  · intro l hl
    simp [task_when_all, List.length_eq_zero, hl, when_all_build_iterate]
  · intro n k hn hk
    rw [when_all_iterate_closed n k hn hk]
    constructor
    · rfl
    · by_cases h : k = n
      · simp [h, task_create_completed]
      · simp [h, task_create_pending]

theorem when_all_counter_semantics_witness :
    ([none, none] : List (Option Task)) ≠ [] ∧
    (task_when_all (some [none, none])).2 =
      some ((when_all_callback)^[initially_done_count [none, none]]
        (when_all_init ([none, none] : List (Option Task)).length)) ∧
    (1 : Nat) ≤ 2 ∧ (2 : Nat) ≤ 2 ∧
    ((when_all_callback)^[2] (when_all_init 2)).remaining =
      ((2 : Nat) : Int) - ((2 : Nat) : Int) ∧
    (((when_all_callback)^[2] (when_all_init 2)).result_task.f_status = 1 ↔
      (2 : Nat) = 2) :=
  ⟨by decide, when_all_counter_semantics.2.2.1 [none, none] (by decide),
   by decide, by decide,
   (when_all_counter_semantics.2.2.2.2 2 2 (by decide) (by decide)).1,
   (when_all_counter_semantics.2.2.2.2 2 2 (by decide) (by decide)).2⟩

/-- C6: in every reachable configuration of M ≥ 1 threads racing
get_sync_block on the same fresh object in which all threads have
returned, a single index was published to the slot by the one winning
compare-and-swap, every thread returned that same block, the table holds
the winning block at that index, and every other entry — the blocks of
the losing allocations — has been nulled out, so no duplicate block
stays live for the object. -/
theorem get_sync_block_single_block {M : Nat} {c : SyncConfig}
    (hM : 1 ≤ M) (hreach : SyncReachable M c)
    (hdone : ∀ t, t < M → ∃ r, c.thr t = SyncPC.done r) :
    c.slot ≠ 0 ∧
    (∀ t, t < M → c.thr t = SyncPC.done c.slot) ∧
    c.table c.slot = some c.slot ∧
    (∀ i, c.table i ≠ none → i = c.slot) := by
  have inv := syncInv_reachable hreach
  obtain ⟨r0, hr0⟩ := hdone 0 hM
  obtain ⟨hs0, hr0s⟩ := inv.done_ok 0 hM r0 hr0
  refine ⟨hs0, ?_, ?_, ?_⟩
  · intro t htM
    obtain ⟨r, hr⟩ := hdone t htM
    obtain ⟨h1, hrs⟩ := inv.done_ok t htM r hr
    rw [hrs] at hr
    exact hr
  · rcases inv.slot_ok with h | ⟨h1, h2, h3, h4⟩
    · exact absurd h hs0
    · exact h3
  · intro i hne
    obtain ⟨e1, e2, e3⟩ := inv.live_ok i hne
    rcases e3 with h | ⟨t0, ht0, hlive⟩
    · exact h
    · obtain ⟨r, hr⟩ := hdone t0 ht0
      rw [hr] at hlive
      rcases hlive with h | ⟨obs, h⟩ <;> simp_all

theorem get_sync_block_single_block_witness :
    syncDemoFinal.slot ≠ 0 ∧
    (∀ t, t < 1 → syncDemoFinal.thr t = SyncPC.done syncDemoFinal.slot) ∧
    syncDemoFinal.table syncDemoFinal.slot = some syncDemoFinal.slot ∧
    (∀ i, syncDemoFinal.table i ≠ none → i = syncDemoFinal.slot) :=
  get_sync_block_single_block (by decide) syncDemo_reachable
    (by
      intro t ht
      have h0 : t = 0 := Nat.lt_one_iff.mp ht
      subst h0
      exact ⟨1, rfl⟩)

/-- C7: threadpool init is idempotent while initialized; a positive
request spawns exactly that many workers; a non-positive request
defaults to the hardware concurrency when the query succeeds; when the
query fails the fallback constant 4 is used, which keeps the worker
count at least 1. -/
theorem threadpool_init_spec :
    (∀ hw : Nat, ∀ n : Int, ∀ s : ThreadPoolState,
        s.s_initialized = true → threadpool_init hw n s = s) ∧
    (∀ hw : Nat, ∀ n : Int, ∀ s : ThreadPoolState,
        s.s_initialized = false → 0 < n →
          (threadpool_init hw n s).s_workers = n.toNat ∧
          (threadpool_init hw n s).s_initialized = true) ∧
    (∀ hw : Nat, ∀ n : Int, ∀ s : ThreadPoolState,
        s.s_initialized = false → n ≤ 0 → 0 < hw →
          (threadpool_init hw n s).s_workers = hw) ∧
    (∀ hw : Nat, ∀ n : Int, ∀ s : ThreadPoolState,
        s.s_initialized = false → n ≤ 0 → hw = 0 →
          (threadpool_init hw n s).s_workers = 4 ∧
          1 ≤ (threadpool_init hw n s).s_workers) := by
  refine ⟨?_, ?_, ?_, ?_⟩
  · intro hw n s h
    simp [threadpool_init, h]
  · intro hw n s h hn
    simp [threadpool_init, h, Int.not_le.mpr hn]
  · intro hw n s h hn hhw
    have h1 : ¬ ((hw : Int) ≤ 0) := by
      simp only [Int.not_le]
      exact_mod_cast hhw
    simp [threadpool_init, h, hn, h1]
  · intro hw n s h hn hhw
    subst hhw
    simp [threadpool_init, h, hn]

theorem threadpool_init_spec_witness :
    ({ s_initialized := true, s_workers := 5 } : ThreadPoolState).s_initialized = true ∧
    threadpool_init 8 2 { s_initialized := true, s_workers := 5 } =
      { s_initialized := true, s_workers := 5 } ∧
    ({ s_initialized := false, s_workers := 0 } : ThreadPoolState).s_initialized = false ∧
    (0 : Int) < 2 ∧
    (threadpool_init 8 2 { s_initialized := false, s_workers := 0 }).s_workers =
      (2 : Int).toNat ∧
    (threadpool_init 8 (-1) { s_initialized := false, s_workers := 0 }).s_workers = 8 ∧
    (threadpool_init 0 (-1) { s_initialized := false, s_workers := 0 }).s_workers = 4 ∧
    1 ≤ (threadpool_init 0 (-1) { s_initialized := false, s_workers := 0 }).s_workers :=
  ⟨rfl,
   threadpool_init_spec.1 8 2 { s_initialized := true, s_workers := 5 } rfl,
   rfl,
   by decide,
   (threadpool_init_spec.2.1 8 2 { s_initialized := false, s_workers := 0 } rfl
      (by decide)).1,
   threadpool_init_spec.2.2.1 8 (-1) { s_initialized := false, s_workers := 0 } rfl
     (by decide) (by decide),
   (threadpool_init_spec.2.2.2 0 (-1) { s_initialized := false, s_workers := 0 } rfl
      (by decide) rfl).1,
   (threadpool_init_spec.2.2.2 0 (-1) { s_initialized := false, s_workers := 0 } rfl
      (by decide) rfl).2⟩

end Cil2Cpp
